import Mathlib

/-!
Verification of the in-memory document store
(`haystack/preview/document_stores/memory/document_store.py`).

The store keeps documents in an insertion-ordered map keyed by document id,
and offers CRUD operations plus BM25 lexical retrieval.  The BM25 scorer
(`rank_bm25`), the tokenizer (a compiled regular expression) and the score
squashing function (`haystack.utils.scipy_utils.expit`) are external
collaborators of the file under study; they are modelled as parameters of
the store, with the squashing function additionally given its concrete
real-valued model `expitScaled`.

Scores are modelled over an arbitrary linear order `σ`; the concrete
instantiations used below are `ℤ` (for executable checks) and `ℝ` (for the
logistic squashing).
-/

namespace Haystack

/-- Filter values of the metadata filter grammar, restricted to the scalar
and list-of-string forms exercised by the retrieval pipeline
(`§4.2` of the design: bare scalar means implicit eq, bare list means
implicit membership). -/
inductive FValue where
  | str (s : String)
  | list (ls : List String)
deriving DecidableEq, Repr

/-- A filter expression: a mapping from field names to filter values,
implicitly conjoined.  Modelled as an insertion-ordered association list,
mirroring a Python dict. -/
abbrev Filters := List (String × FValue)

/-- Document content: free text or a two-dimensional tabular structure.
Only these two content payloads reach the scoring pipeline; the mandatory
content-type restriction excludes every other content type before
normalization. -/
inductive Content where
  | text (s : String)
  | table (rows : List (List String))
deriving DecidableEq, Repr

/-- The opaque Document collaborator: id, content payload, open metadata
mapping, and an optional relevance score. -/
structure Document (σ : Type) where
  id : String
  content : Content
  meta : List (String × FValue)
  score : Option σ := none
deriving DecidableEq, Repr

instance {σ : Type} : Inhabited (Document σ) :=
  ⟨{ id := "", content := Content.text (""), meta := [], score := none }⟩

/-- The content-type tag of a document, determined by its payload
(`"text"` or `"table"`). -/
def Document.content_type {σ : Type} (d : Document σ) : String :=
  match d.content with
  | Content.text _ => "text"
  | Content.table _ => "table"

/-- The error kinds of the store (spec section 7).  In the Python code the
first and last are raised as `ValueError` with distinct messages. -/
inductive DSError where
  | invalidInput
  | duplicateDocument (id : String)
  | missingDocument (id : String)
  | unsupportedContentType
deriving DecidableEq, Repr

deriving instance DecidableEq for Except

/-- The duplicate policy of `write_documents`. -/
inductive DuplicatePolicy where
  | skip
  | overwrite
  | fail
deriving DecidableEq, Repr

/-- The storage map `self.storage : Dict[str, Document]`: an
insertion-ordered association list, mirroring a Python dict. -/
abbrev Storage (σ : Type) := List (String × Document σ)

/-- Python `key in dict`. -/
def storageContains {σ : Type} (st : Storage σ) (key : String) : Bool :=
  st.any (fun kv => kv.1 = key)

/-- Python `dict[key] = value`: replace in place when the key exists
(keeping its position), append otherwise. -/
def storageSet {σ : Type} (st : Storage σ) (key : String) (d : Document σ) :
    Storage σ :=
  if storageContains st key then
    st.map (fun kv => if kv.1 = key then (key, d) else kv)
  else
    st ++ [(key, d)]

/-- Python `del dict[key]`. -/
def storageErase {σ : Type} (st : Storage σ) (key : String) : Storage σ :=
  st.filter (fun kv => kv.1 ≠ key)

/-- `count_documents`: `len(self.storage.keys())`. -/
def count_documents {σ : Type} (st : Storage σ) : Nat :=
  st.length

/-- Result of a write batch: the storage after all applied mutations, the
ids for which a duplicate warning was logged, and the error that aborted
the batch, if any.  The error case still carries the storage because the
Python loop mutates `self.storage` in place and is not transactional. -/
structure WriteResult (σ : Type) where
  storage : Storage σ
  warnings : List String
  error : Option DSError
deriving DecidableEq, Repr

/-- `write_documents` (lines 147-153 of the source).  For each document: if
its id already exists, policy `fail` raises at once; policy `skip` logs a
warning; then — unconditionally, the source has no `continue` after the
warning — the assignment `self.storage[document.id] = document` runs, so
both `skip` and `overwrite` store the incoming document. -/
def write_documents {σ : Type} (st : Storage σ) (documents : List (Document σ))
    (duplicates : DuplicatePolicy) : WriteResult σ :=
  match documents with
  | [] => { storage := st, warnings := [], error := none }
  | d :: rest =>
    if storageContains st d.id then
      match duplicates with
      | DuplicatePolicy.fail =>
        { storage := st, warnings := [],
          error := some (DSError.duplicateDocument d.id) }
      | DuplicatePolicy.skip =>
        let r := write_documents (storageSet st d.id d) rest duplicates
        { r with warnings := d.id :: r.warnings }
      | DuplicatePolicy.overwrite =>
        write_documents (storageSet st d.id d) rest duplicates
    else
      write_documents (storageSet st d.id d) rest duplicates

/-- A Python iterable of documents passed to `write_documents`.  A list can
be iterated any number of times; a generator (`singlePass = true`) is
exhausted by its first full iteration. -/
structure PyIterable (σ : Type) where
  elems : List (Document σ)
  singlePass : Bool

/-- One full iteration over the iterable: yields its remaining elements and
the iterable's state afterwards. -/
def PyIterable.consume {σ : Type} (it : PyIterable σ) :
    List (Document σ) × PyIterable σ :=
  (it.elems, if it.singlePass then { it with elems := [] } else it)

/-- `write_documents` on an arbitrary iterable (lines 140-153).  The
validation `any(not isinstance(doc, Document) for doc in documents)` fully
iterates the argument (every element is a `Document` in this typed model,
so `any` never short-circuits and never raises); the insertion loop then
iterates it a second time. -/
def write_documents_iterable {σ : Type} (st : Storage σ) (documents : PyIterable σ)
    (duplicates : DuplicatePolicy) : WriteResult σ :=
  let checked := documents.consume
  let second := checked.2.consume
  write_documents st second.1 duplicates

/-- `delete_documents` (lines 162-165): for each id in order, raise
`MissingDocumentError` if absent — leaving deletions already performed in
place — otherwise delete the entry. -/
def delete_documents {σ : Type} (st : Storage σ) (document_ids : List String) :
    Storage σ × Option DSError :=
  match document_ids with
  | [] => (st, none)
  | doc_id :: rest =>
    if storageContains st doc_id then
      delete_documents (storageErase st doc_id) rest
    else
      (st, some (DSError.missingDocument doc_id))

/-- The value a filter field name denotes on a document.  Modelled from the
spec: the filter evaluator (`_filters.match`, not among the sources) matches
field names against the document's flat field mapping, which contains the
id, the content-type tag and the open metadata entries (sections 3 and 4.2
of the design). -/
def fieldValue {σ : Type} (d : Document σ) (field : String) : Option FValue :=
  if field = "content_type" then some (FValue.str d.content_type)
  else if field = "id" then some (FValue.str d.id)
  else (d.meta.find? (fun kv => kv.1 = field)).map Prod.snd

/-- Evaluation of one field condition.  Modelled from the spec (section
4.2): a bare scalar means implicit equality, a bare list means implicit
membership of the field's scalar value, and a missing field matches
neither. -/
def matchEntry {σ : Type} (d : Document σ) (field : String) (v : FValue) : Bool :=
  match fieldValue d field, v with
  | some fv, FValue.str s => fv = FValue.str s
  | some (FValue.str fs), FValue.list ls => fs ∈ ls
  | some (FValue.list _), FValue.list _ => false
  | none, _ => false

/-- The filter evaluator.  Modelled from the spec: the recursive evaluator
`_filters.match` is not among the sources; section 4.2 of the design is
followed on the fragment of the grammar used by the retrieval pipeline — a
top-level mapping with no logical key is the implicit conjunction of its
field entries. -/
def matchDocument {σ : Type} (conditions : Filters) (d : Document σ) : Bool :=
  conditions.all (fun kv => matchEntry d kv.1 kv.2)

/-- `filter_documents` (lines 123-125): a truthy filter mapping selects the
matching documents; `None` or an empty mapping returns every stored
document, in storage order. -/
def filter_documents {σ : Type} (st : Storage σ) (filters : Option Filters) :
    List (Document σ) :=
  match filters with
  | some conditions =>
    if conditions.isEmpty then st.map Prod.snd
    else (st.map Prod.snd).filter (fun doc => matchDocument conditions doc)
  | none => st.map Prod.snd

/-- The content types eligible for BM25 retrieval. -/
def allowedContentTypes : List String := ["text", "table"]

/-- The list of content-type names a filter value stands for, as iterated
by the source's check: a string is wrapped into a singleton list, a list is
iterated as is (lines 185-188). -/
def contentTypeValues (v : FValue) : List String :=
  match v with
  | FValue.str s => [s]
  | FValue.list ls => ls

/-- Python `dict.get`-style first lookup in a filter mapping. -/
def filtersLookup (f : Filters) (key : String) : Option FValue :=
  (f.find? (fun kv => kv.1 = key)).map Prod.snd

/-- Lines 184-194 of the source: when the caller's filters are truthy and
constrain `content_type`, raise if any requested content type is outside
`{text, table}` and otherwise use the filters unchanged; when they do not
constrain `content_type`, merge in the restriction to `["text", "table"]`
(a fresh key of a Python dict merge is appended at the end). -/
def effectiveFilters (filters : Option Filters) : Except DSError Filters :=
  match filters with
  | some f =>
    if ¬ f.isEmpty ∧ (filtersLookup f ("content_type")).isSome then
      match filtersLookup f ("content_type") with
      | some v =>
        if (contentTypeValues v).any (fun t => t ∉ allowedContentTypes) then
          Except.error DSError.unsupportedContentType
        else Except.ok f
      | none => Except.ok f
    else Except.ok (f ++ [("content_type", FValue.list allowedContentTypes)])
  | none => Except.ok [("content_type", FValue.list allowedContentTypes)]

/-- The candidate set of a retrieval call: the stored documents matching
the effective filters (line 195 of the source). -/
def candidateDocuments {σ : Type} (st : Storage σ) (filters : Option Filters) :
    Except DSError (List (Document σ)) :=
  match effectiveFilters filters with
  | Except.error e => Except.error e
  | Except.ok f => Except.ok (filter_documents st (some f))

/-- Deterministic textual surrogate of a table, standing for
`DataFrame.astype(str).to_csv(index=False)` (tabular stringification is an
out-of-scope collaborator, treated as a deterministic delimited text
form). -/
def tableToCsv (rows : List (List String)) : String :=
  String.intercalate ("\n") (rows.map (fun row => String.intercalate (",") row)) ++ "\n"

/-- Lines 198-205 of the source: the lowercase text surrogate of each
candidate, in candidate order.  Both content payloads are handled, so the
list is a map over the candidates. -/
def lowerCaseDocuments {σ : Type} (docs : List (Document σ)) : List String :=
  docs.map (fun doc =>
    match doc.content with
    | Content.text s => s.toLower
    | Content.table rows => (tableToCsv rows).toLower)

/-- The store: the storage map plus the configured collaborators — the
tokenizer (`re.compile(bm25_tokenization_regex).findall`), the corpus-scoped
scorer (`rank_bm25.<algorithm>(corpus, **parameters).get_scores`), and the
score squashing map (`lambda s: expit(s / SCALING_FACTOR)`, whose concrete
real-valued model is `expitScaled` below). -/
structure MemoryDocumentStore (σ : Type) where
  storage : Storage σ
  tokenizer : String → List String
  scorer : List (List String) → List String → List σ
  squash : σ → σ

/-- Index/score pairs `(k, a) :: (k+1, b) :: ...` of a list, the positional
index space used for score lookup. -/
def indexedFrom {σ : Type} (k : Nat) : List σ → List (Nat × σ)
  | [] => []
  | a :: l => (k, a) :: indexedFrom (k + 1) l

/-- Index/score pairs of a list, indices starting at `0`. -/
def indexed {σ : Type} (l : List σ) : List (Nat × σ) :=
  indexedFrom 0 l

/-- The comparison the modelled `argsort` uses on index/score pairs:
ascending score, equal scores broken by index.  `numpy.argsort` guarantees
only the ascending score order — its default quicksort is not a stable
sort, so the order among equal scores is unspecified (index order holds
only on its small-array insertion-sort path); the index tie-break here is
one executable determinization of that freedom, and conclusions about the
program rely only on the score component of the order. -/
def argRel {σ : Type} [LinearOrder σ] (p q : Nat × σ) : Prop :=
  p.2 < q.2 ∨ (p.2 = q.2 ∧ p.1 ≤ q.1)

instance {σ : Type} [LinearOrder σ] : DecidableRel (argRel (σ := σ)) :=
  fun p q => decidable_of_iff (p.2 < q.2 ∨ (p.2 = q.2 ∧ p.1 ≤ q.1)) Iff.rfl

instance {σ : Type} [LinearOrder σ] : IsTotal (Nat × σ) (argRel (σ := σ)) := by
  constructor
  intro p q
  rcases lt_trichotomy p.2 q.2 with h | h | h
  · exact Or.inl (Or.inl h)
  · rcases Nat.le_total p.1 q.1 with h1 | h1
    · exact Or.inl (Or.inr ⟨h, h1⟩)
    · exact Or.inr (Or.inr ⟨h.symm, h1⟩)
  · exact Or.inr (Or.inl h)

instance {σ : Type} [LinearOrder σ] : IsTrans (Nat × σ) (argRel (σ := σ)) := by
  constructor
  intro p q r hpq hqr
  rcases hpq with h1 | ⟨h1, h1i⟩
  · rcases hqr with h2 | ⟨h2, _⟩
    · exact Or.inl (h1.trans h2)
    · exact Or.inl (h2 ▸ h1)
  · rcases hqr with h2 | ⟨h2, h2i⟩
    · exact Or.inl (h1 ▸ h2)
    · exact Or.inr ⟨h1.trans h2, h1i.trans h2i⟩

/-- `numpy.argsort(scores)`: the indices of `scores` in ascending score
order.  The order among equal scores is unspecified for numpy's default
quicksort; this executable model determinizes it by original index, and
every property stated about the program is insensitive to that choice —
it holds for any permutation that sorts the scores ascending. -/
def argsort {σ : Type} [LinearOrder σ] (scores : List σ) : List Nat :=
  (List.insertionSort argRel (indexed scores)).map Prod.fst

/-- Python slice `l[s:]`: a negative start counts from the end and clamps
at `0`; a nonnegative start clamps at the length. -/
def pySliceFrom {α : Type} (s : Int) (l : List α) : List α :=
  if s < 0 then l.drop (l.length - (-s).toNat) else l.drop s.toNat

/-- The scores of line 220 and the optional rescaling of lines 221-223: the
scorer is asked once for the tokenized query against the tokenized corpus,
and each raw score is squashed when `scale_score` is set. -/
def bm25DocsScores {σ : Type} (store : MemoryDocumentStore σ)
    (all_documents : List (Document σ)) (query : String) (scale_score : Bool) :
    List σ :=
  let tokenized_corpus := (lowerCaseDocuments all_documents).map store.tokenizer
  let raw := store.scorer tokenized_corpus (store.tokenizer query.toLower)
  if scale_score then raw.map store.squash else raw

/-- `bm25_retrieval` (lines 167-235): reject an empty query, compute the
effective filters and the candidate set, return an empty list on an empty
corpus, otherwise score, optionally rescale, take the positions
`argsort(scores)[-top_k:]` and return, in that order, a copy of each
selected candidate with its score attached.  The source never assigns to
`self.storage`, so the call leaves the store unchanged and is modelled as a
pure function of it. -/
def bm25_retrieval {σ : Type} [LinearOrder σ] (store : MemoryDocumentStore σ)
    (query : String) (filters : Option Filters) (top_k : Int)
    (scale_score : Bool) : Except DSError (List (Document σ)) :=
  if query = "" then Except.error DSError.invalidInput
  else
    match candidateDocuments store.storage filters with
    | Except.error e => Except.error e
    | Except.ok all_documents =>
      if ((lowerCaseDocuments all_documents).map store.tokenizer).length = 0 then
        Except.ok []
      else
        let docs_scores := bm25DocsScores store all_documents query scale_score
        let top_docs_positions := pySliceFrom (-top_k) (argsort docs_scores)
        Except.ok (top_docs_positions.map (fun i =>
          { all_documents.getD i default with score := docs_scores[i]? }))

/-- `SCALING_FACTOR = 8` (line 21 of the source). -/
def SCALING_FACTOR : ℝ := 8

/-- Modelled from the spec: `haystack.utils.scipy_utils.expit` is not among
the sources; the spec describes it as the logistic-style squashing function
producing a value in `(0, 1)`, which is the standard logistic sigmoid. -/
noncomputable def expit (x : ℝ) : ℝ :=
  1 / (1 + Real.exp (-x))

/-- The concrete squashing map of line 223 of the source:
`expit(score / SCALING_FACTOR)`. -/
noncomputable def expitScaled (score : ℝ) : ℝ :=
  expit (score / SCALING_FACTOR)

/-- The ordering the modelled `argsort` establishes between two selected
positions of a score list: ascending score, then index.  Only its score
component — which any `numpy.argsort` result satisfies — is used in
statements about the program. -/
def scoreRel {σ : Type} [LinearOrder σ] (l : List σ) (i j : Nat) : Prop :=
  ∃ x y, l[i]? = some x ∧ l[j]? = some y ∧ (x < y ∨ (x = y ∧ i < j))

theorem length_indexedFrom {σ : Type} (k : Nat) (l : List σ) :
    (indexedFrom k l).length = l.length := by
  induction l generalizing k with
  | nil => rfl
  | cons a l ih => simp [indexedFrom, ih]

theorem mem_indexedFrom {σ : Type} {k : Nat} {l : List σ} {p : Nat × σ}
    (hp : p ∈ indexedFrom k l) : k ≤ p.1 ∧ l[p.1 - k]? = some p.2 := by
  induction l generalizing k with
  | nil => simp [indexedFrom] at hp
  | cons a l ih =>
    simp only [indexedFrom, List.mem_cons] at hp
    rcases hp with h | h
    · subst h; simp
    · obtain ⟨h1, h2⟩ := ih h
      refine ⟨by omega, ?_⟩
      have he : p.1 - k = (p.1 - (k + 1)) + 1 := by omega
      rw [he, List.getElem?_cons_succ]
      exact h2

theorem map_fst_indexedFrom {σ : Type} (k : Nat) (l : List σ) :
    (indexedFrom k l).map Prod.fst = (List.range l.length).map (fun j => j + k) := by
  induction l generalizing k with
  | nil => rfl
  | cons a l ih =>
    rw [List.length_cons, List.range_succ_eq_map]
    simp only [indexedFrom, List.map_cons, ih]
    refine congrArg₂ List.cons (by omega) ?_
    rw [List.map_map]
    refine List.map_congr_left (fun j hj => ?_)
    simp only [Function.comp_apply]
    omega

theorem map_fst_indexed {σ : Type} (l : List σ) :
    (indexed l).map Prod.fst = List.range l.length := by
  rw [indexed, map_fst_indexedFrom]
  simp

theorem indexedFrom_map {σ τ : Type} (f : σ → τ) (k : Nat) (l : List σ) :
    indexedFrom k (l.map f) = (indexedFrom k l).map (fun p => (p.1, f p.2)) := by
  induction l generalizing k with
  | nil => rfl
  | cons a l ih => simp [indexedFrom, ih]

theorem argsort_perm_range {σ : Type} [LinearOrder σ] (l : List σ) :
    (argsort l).Perm (List.range l.length) := by
  have h := (List.perm_insertionSort (argRel (σ := σ)) (indexed l)).map Prod.fst
  rwa [map_fst_indexed] at h

theorem length_argsort {σ : Type} [LinearOrder σ] (l : List σ) :
    (argsort l).length = l.length := by
  have h := (argsort_perm_range l).length_eq
  simpa using h

theorem mem_argsort_lt {σ : Type} [LinearOrder σ] {l : List σ} {i : Nat}
    (hi : i ∈ argsort l) : i < l.length := by
  have h := (argsort_perm_range l).mem_iff.mp hi
  simpa using h

theorem pairwise_argsort {σ : Type} [LinearOrder σ] (l : List σ) :
    (argsort l).Pairwise (scoreRel l) := by
  unfold argsort
  rw [List.pairwise_map]
  have hsorted : (List.insertionSort (argRel (σ := σ)) (indexed l)).Pairwise
      (argRel (σ := σ)) :=
    List.sorted_insertionSort _ _
  have hperm := List.perm_insertionSort (argRel (σ := σ)) (indexed l)
  have hmem : ∀ p ∈ List.insertionSort (argRel (σ := σ)) (indexed l),
      l[p.1]? = some p.2 := by
    intro p hp
    have hp2 : p ∈ indexedFrom 0 l := hperm.mem_iff.mp hp
    have h := mem_indexedFrom hp2
    simpa using h.2
  have hnodup : ((List.insertionSort (argRel (σ := σ)) (indexed l)).map
      Prod.fst).Nodup := by
    have hpm : ((List.insertionSort (argRel (σ := σ)) (indexed l)).map
        Prod.fst).Perm (List.range l.length) := by
      have h := hperm.map Prod.fst
      rwa [map_fst_indexed] at h
    exact hpm.nodup_iff.mpr (List.nodup_range _)
  have hne : (List.insertionSort (argRel (σ := σ)) (indexed l)).Pairwise
      (fun p q => p.1 ≠ q.1) :=
    List.pairwise_map.mp hnodup
  refine (hsorted.and hne).imp_of_mem ?_
  intro p q hp hq hpr
  obtain ⟨hrel, hne1⟩ := hpr
  refine ⟨p.2, q.2, hmem p hp, hmem q hq, ?_⟩
  rcases hrel with h1 | ⟨h1, h2⟩
  · exact Or.inl h1
  · exact Or.inr ⟨h1, lt_of_le_of_ne h2 hne1⟩

theorem orderedInsert_map_rel {α β : Type} (r : α → α → Prop) (s : β → β → Prop)
    [DecidableRel r] [DecidableRel s] (φ : α → β)
    (h : ∀ a b, s (φ a) (φ b) ↔ r a b) (a : α) (l : List α) :
    List.orderedInsert s (φ a) (l.map φ) = (List.orderedInsert r a l).map φ := by
  induction l with
  | nil => rfl
  | cons b l ih =>
    by_cases hab : r a b
    · simp only [List.map_cons, List.orderedInsert, if_pos hab,
        if_pos ((h a b).mpr hab)]
    · simp only [List.map_cons, List.orderedInsert, if_neg hab,
        if_neg (fun hc => hab ((h a b).mp hc)), ih]

theorem insertionSort_map_rel {α β : Type} (r : α → α → Prop) (s : β → β → Prop)
    [DecidableRel r] [DecidableRel s] (φ : α → β)
    (h : ∀ a b, s (φ a) (φ b) ↔ r a b) (l : List α) :
    List.insertionSort s (l.map φ) = (List.insertionSort r l).map φ := by
  induction l with
  | nil => rfl
  | cons a l ih =>
    simp only [List.map_cons, List.insertionSort, ih]
    exact orderedInsert_map_rel r s φ h a _

theorem argsort_map_strictMono {σ τ : Type} [LinearOrder σ] [LinearOrder τ]
    {f : σ → τ} (hf : StrictMono f) (l : List σ) :
    argsort (l.map f) = argsort l := by
  unfold argsort
  rw [indexed, indexedFrom_map f 0 l, ← indexed]
  rw [insertionSort_map_rel (argRel (σ := σ)) (argRel (σ := τ))
    (fun p => (p.1, f p.2)) (fun p q => by
      simp [argRel, hf.lt_iff_lt, hf.injective.eq_iff]) (indexed l)]
  rw [List.map_map]
  rfl

theorem pySliceFrom_sublist {α : Type} (s : Int) (l : List α) :
    (pySliceFrom s l).Sublist l := by
  unfold pySliceFrom
  split
  · exact List.drop_sublist _ _
  · exact List.drop_sublist _ _

theorem length_bm25DocsScores {σ : Type} (store : MemoryDocumentStore σ)
    (cands : List (Document σ)) (q : String) (sc : Bool)
    (hscorer : ∀ c tq, (store.scorer c tq).length = c.length) :
    (bm25DocsScores store cands q sc).length = cands.length := by
  unfold bm25DocsScores
  split <;> simp [hscorer, lowerCaseDocuments]

theorem map_getD_range {α β : Type} [Inhabited α] (l : List α) (g : α → β) :
    (List.range l.length).map (fun i => g (l.getD i default)) = l.map g := by
  induction l with
  | nil => rfl
  | cons a l ih =>
    rw [List.length_cons, List.range_succ_eq_map, List.map_cons, List.map_map]
    refine congrArg₂ List.cons rfl ?_
    rw [← ih]
    refine List.map_congr_left (fun j hj => ?_)
    simp [List.getD_cons_succ]

theorem filter_documents_sublist {σ : Type} (st : Storage σ) (f : Option Filters) :
    (filter_documents st f).Sublist (st.map Prod.snd) := by
  unfold filter_documents
  match f with
  | none => exact List.Sublist.refl _
  | some c =>
    dsimp only
    by_cases hc : c.isEmpty = true
    · rw [if_pos hc]
    · rw [if_neg hc]
      exact List.filter_sublist _

theorem bm25_retrieval_ok_cases {σ : Type} [LinearOrder σ]
    {store : MemoryDocumentStore σ} {q : String} {f : Option Filters} {k : Int}
    {sc : Bool} {docs cands : List (Document σ)}
    (hcands : candidateDocuments store.storage f = Except.ok cands)
    (hok : bm25_retrieval store q f k sc = Except.ok docs) :
    (docs = [] ∧ cands = []) ∨
      docs = (pySliceFrom (-k) (argsort (bm25DocsScores store cands q sc))).map
        (fun i => { cands.getD i default with
                    score := (bm25DocsScores store cands q sc)[i]? }) := by
  unfold bm25_retrieval at hok
  by_cases hq : q = ""
  · rw [if_pos hq] at hok
    exact Except.noConfusion hok
  · rw [if_neg hq, hcands] at hok
    dsimp only at hok
    by_cases hce : ((lowerCaseDocuments cands).map store.tokenizer).length = 0
    · rw [if_pos hce] at hok
      left
      have hdocs : docs = [] := by
        injection hok with h
        exact h.symm
      have hcnil : cands = [] := by
        have hln : cands.length = 0 := by
          simpa [lowerCaseDocuments] using hce
        exact List.length_eq_zero.mp hln
      exact ⟨hdocs, hcnil⟩
    · rw [if_neg hce] at hok
      right
      injection hok with h
      exact h.symm

theorem expit_pos (x : ℝ) : 0 < expit x := by
  unfold expit
  positivity

theorem expit_lt_one (x : ℝ) : expit x < 1 := by
  unfold expit
  rw [div_lt_one (by positivity)]
  have h := Real.exp_pos (-x)
  linarith

theorem expit_strictMono : StrictMono expit := by
  intro a b hab
  unfold expit
  have h1 : Real.exp (-b) < Real.exp (-a) := Real.exp_lt_exp.mpr (by linarith)
  have h2 : 0 < 1 + Real.exp (-b) := by positivity
  rw [div_lt_div_iff₀ (by positivity) h2]
  linarith

theorem expitScaled_strictMono : StrictMono expitScaled := by
  intro a b hab
  unfold expitScaled
  refine expit_strictMono ?_
  have h8 : (0 : ℝ) < SCALING_FACTOR := by norm_num [SCALING_FACTOR]
  exact div_lt_div_of_pos_right hab h8

theorem expitScaled_mem (x : ℝ) : 0 < expitScaled x ∧ expitScaled x < 1 :=
  ⟨expit_pos _, expit_lt_one _⟩

theorem write_documents_append {σ : Type} (st : Storage σ)
    (l₁ l₂ : List (Document σ)) (pol : DuplicatePolicy) (st₁ : Storage σ)
    (w₁ : List String)
    (h : write_documents st l₁ pol = { storage := st₁, warnings := w₁, error := none }) :
    write_documents st (l₁ ++ l₂) pol =
      { storage := (write_documents st₁ l₂ pol).storage,
        warnings := w₁ ++ (write_documents st₁ l₂ pol).warnings,
        error := (write_documents st₁ l₂ pol).error } := by
  induction l₁ generalizing st w₁ with
  | nil =>
    simp only [write_documents, WriteResult.mk.injEq] at h
    obtain ⟨h1, h2, _⟩ := h
    subst h1
    subst h2
    simp only [List.nil_append]
  | cons d l ih =>
    rw [List.cons_append]
    by_cases hc : storageContains st d.id = true
    · cases pol with
      | fail =>
        simp [write_documents, hc] at h
      | skip =>
        simp only [write_documents, hc, if_true, WriteResult.mk.injEq] at h
        obtain ⟨h1, h2, h3⟩ := h
        have hrec : write_documents (storageSet st d.id d) l DuplicatePolicy.skip =
            { storage := st₁,
              warnings := (write_documents (storageSet st d.id d) l
                DuplicatePolicy.skip).warnings,
              error := none } := by
          rw [← h1, ← h3]
        have hresult := ih (storageSet st d.id d) _ hrec
        have heq : write_documents st (d :: (l ++ l₂)) DuplicatePolicy.skip =
            { write_documents (storageSet st d.id d) (l ++ l₂)
                DuplicatePolicy.skip with
              warnings := d.id :: (write_documents (storageSet st d.id d) (l ++ l₂)
                DuplicatePolicy.skip).warnings } := by
          simp only [write_documents, hc, if_true]
        rw [heq, hresult, ← h2]
        simp
      | overwrite =>
        simp only [write_documents, hc, if_true] at h
        have hresult := ih (storageSet st d.id d) _ h
        have heq : write_documents st (d :: (l ++ l₂)) DuplicatePolicy.overwrite =
            write_documents (storageSet st d.id d) (l ++ l₂)
              DuplicatePolicy.overwrite := by
          simp only [write_documents, hc, if_true]
        rw [heq, hresult]
    · have hc2 : storageContains st d.id = false := by
        simpa using hc
      have hstep : ∀ st2 : Storage σ, storageContains st2 d.id = false →
          ∀ rest : List (Document σ),
          write_documents st2 (d :: rest) pol =
            write_documents (storageSet st2 d.id d) rest pol := by
        intro st2 hst2 rest
        cases pol <;> simp only [write_documents, hst2, Bool.false_eq_true,
          if_false]
      rw [hstep st hc2 l] at h
      have hresult := ih (storageSet st d.id d) _ h
      rw [hstep st hc2 (l ++ l₂), hresult]

theorem candidateDocuments_eq_filter {σ : Type} {st : Storage σ}
    {f : Option Filters} {cands : List (Document σ)}
    (hcands : candidateDocuments st f = Except.ok cands) :
    ∃ f2, effectiveFilters f = Except.ok f2 ∧
      cands = filter_documents st (some f2) := by
  unfold candidateDocuments at hcands
  cases heff : effectiveFilters f with
  | error e =>
    rw [heff] at hcands
    exact Except.noConfusion hcands
  | ok f2 =>
    rw [heff] at hcands
    dsimp only at hcands
    injection hcands with h
    exact ⟨f2, rfl, h.symm⟩

theorem delete_documents_append {σ : Type} (st : Storage σ)
    (l₁ l₂ : List String) (st₁ : Storage σ)
    (h : delete_documents st l₁ = (st₁, none)) :
    delete_documents st (l₁ ++ l₂) = delete_documents st₁ l₂ := by
  induction l₁ generalizing st with
  | nil =>
    simp only [delete_documents, Prod.mk.injEq] at h
    rw [List.nil_append, h.1]
  | cons a l ih =>
    by_cases hc : storageContains st a = true
    · simp only [List.cons_append, delete_documents, hc, if_true] at h ⊢
      exact ih _ h
    · have hc2 : storageContains st a = false := by simpa using hc
      simp [delete_documents, hc2] at h

/-! Concrete stores used to evaluate the operations on explicit inputs. -/

/-- A text document with id `"1"` and content `"a"`. -/
def exDocA : Document Int :=
  { id := "1", content := Content.text ("a"), meta := [] }

/-- A text document with the same id `"1"` but content `"b"`. -/
def exDocB : Document Int :=
  { id := "1", content := Content.text ("b"), meta := [] }

/-- A text document with id `"2"` and content `"c"`. -/
def exDocC : Document Int :=
  { id := "2", content := Content.text ("c"), meta := [] }

/-- A storage holding only `exDocA`. -/
def exStorage1 : Storage Int := [("1", exDocA)]

/-- A storage holding `exDocA` and `exDocC`. -/
def exStorage2 : Storage Int := [("1", exDocA), ("2", exDocC)]

/-- A trivial tokenizer: the whole string is one token. -/
def exTokenizer : String → List String := fun s => [s]

/-- A scorer meeting the external contract: one score, `0`, per corpus
document. -/
def exScorerZero : List (List String) → List String → List Int :=
  fun corpus _ => corpus.map (fun _ => 0)

/-- A scorer returning the fixed score vector `[1, 2]`. -/
def exScorerAsc : List (List String) → List String → List Int :=
  fun _ _ => [1, 2]

/-- A store over `exStorage2` with the zero scorer. -/
def exStoreZero : MemoryDocumentStore Int :=
  { storage := exStorage2, tokenizer := exTokenizer, scorer := exScorerZero,
    squash := fun s => s }

/-- A store over `exStorage2` with the `[1, 2]` scorer. -/
def exStoreAsc : MemoryDocumentStore Int :=
  { storage := exStorage2, tokenizer := exTokenizer, scorer := exScorerAsc,
    squash := fun s => s }

/-- `exDocA` with score `0` attached. -/
def exDocA0 : Document Int := { exDocA with score := some 0 }

/-- `exDocC` with score `0` attached. -/
def exDocC0 : Document Int := { exDocC with score := some 0 }

/-- `exDocA` with score `1` attached. -/
def exDocA1 : Document Int := { exDocA with score := some 1 }

/-- `exDocC` with score `2` attached. -/
def exDocC2 : Document Int := { exDocC with score := some 2 }

/-! The claims. -/

/-- C1: the claim reads that under the `skip` duplicate policy a document
whose id already exists leaves the stored record unchanged, with only a
diagnostic emitted.  The code contradicts its own docstring (`skip: keep
the existing document and ignore the new one`): after logging the warning
it still runs `self.storage[document.id] = document`, so the incoming
document replaces the stored one.  Evaluating the write at the failing
input: a store holding id `"1"` with content `"a"`, written with a
document of id `"1"` and content `"b"` under `skip`, ends with content
`"b"` stored (and the warning logged), not the original record. -/
theorem write_documents_skip_overwrites :
    write_documents exStorage1 [exDocB] DuplicatePolicy.skip =
      { storage := [("1", exDocB)], warnings := ["1"], error := none } ∧
    ¬ ([("1", exDocB)] : Storage Int) = exStorage1 := by
  constructor
  · decide
  · decide

/-- C6: under the `fail` policy, a batch that hits an existing id raises
`DuplicateDocument` at that document, the storage stays exactly as the
prefix of the batch left it (no rollback), and in particular the stored
record for the duplicated id keeps its content. -/
theorem write_documents_fail_duplicate {σ : Type} (st : Storage σ)
    (pre : List (Document σ)) (d : Document σ) (rest : List (Document σ))
    (st₁ : Storage σ)
    (hpre : write_documents st pre DuplicatePolicy.fail =
      { storage := st₁, warnings := [], error := none })
    (hdup : storageContains st₁ d.id = true) :
    write_documents st (pre ++ d :: rest) DuplicatePolicy.fail =
      { storage := st₁, warnings := [],
        error := some (DSError.duplicateDocument d.id) } := by
  rw [write_documents_append st pre (d :: rest) DuplicatePolicy.fail st₁ [] hpre]
  simp [write_documents, hdup]

/-- Witness for C6 at a concrete input: writing `[exDocC, exDocB]` with
policy `fail` into a store already holding id `"1"` applies the write of
`exDocC` and fails on `exDocB`. -/
theorem write_documents_fail_duplicate_witness :
    write_documents exStorage1 [exDocC] DuplicatePolicy.fail =
      { storage := [("1", exDocA), ("2", exDocC)], warnings := [], error := none } ∧
    storageContains [("1", exDocA), ("2", exDocC)] (exDocB.id) = true ∧
    write_documents exStorage1 ([exDocC] ++ exDocB :: []) DuplicatePolicy.fail =
      { storage := [("1", exDocA), ("2", exDocC)], warnings := [],
        error := some (DSError.duplicateDocument exDocB.id) } :=
  ⟨by decide, by decide,
    write_documents_fail_duplicate exStorage1 [exDocC] exDocB []
      [("1", exDocA), ("2", exDocC)] (by decide) (by decide)⟩

/-- C7: `delete_documents` fails with `MissingDocument` on the first absent
id of the batch; identifiers before it have already been removed and stay
removed, the resulting storage is exactly the state after those removals,
and with an empty prefix (a single-element batch of an absent id) the
storage — hence `count_documents` — is unchanged. -/
theorem delete_documents_missing {σ : Type} (st : Storage σ) (pre : List String)
    (bad : String) (rest : List String) (st₁ : Storage σ)
    (hpre : delete_documents st pre = (st₁, none))
    (habs : storageContains st₁ bad = false) :
    delete_documents st (pre ++ bad :: rest) =
      (st₁, some (DSError.missingDocument bad)) ∧
    count_documents (delete_documents st (pre ++ bad :: rest)).1 =
      count_documents st₁ ∧
    (pre = [] → st₁ = st) := by
  have hmain : delete_documents st (pre ++ bad :: rest) =
      (st₁, some (DSError.missingDocument bad)) := by
    rw [delete_documents_append st pre (bad :: rest) st₁ hpre]
    simp [delete_documents, habs]
  refine ⟨hmain, by rw [hmain], ?_⟩
  intro hp
  subst hp
  simp only [delete_documents, Prod.mk.injEq] at hpre
  exact hpre.1.symm

/-- Witness for C7 at a concrete input: deleting `["1", "2"]` from a store
holding only id `"1"` removes `"1"` and fails on `"2"`, leaving the
one-entry deletion applied. -/
theorem delete_documents_missing_witness :
    delete_documents exStorage1 ["1"] = ([], none) ∧
    storageContains ([] : Storage Int) (exDocC.id) = false ∧
    (delete_documents exStorage1 (["1"] ++ exDocC.id :: []) =
      ([], some (DSError.missingDocument exDocC.id)) ∧
    count_documents (delete_documents exStorage1 (["1"] ++ exDocC.id :: [])).1 =
      count_documents ([] : Storage Int) ∧
    (["1"] = ([] : List String) → ([] : Storage Int) = exStorage1)) :=
  ⟨by decide, by decide,
    delete_documents_missing exStorage1 ["1"] (exDocC.id) [] []
      (by decide) (by decide)⟩

/-- C8: `bm25_retrieval` checks the query before anything else; an empty
query always fails with `InvalidInput`, whatever the filters, `top_k` and
`scale_score` arguments, and the store is untouched (the source never
assigns to `self.storage`; the call is a pure read). -/
theorem bm25_retrieval_empty_query {σ : Type} [LinearOrder σ]
    (store : MemoryDocumentStore σ) (filters : Option Filters) (top_k : Int)
    (scale_score : Bool) :
    bm25_retrieval store ("") filters top_k scale_score =
      Except.error DSError.invalidInput := by
  unfold bm25_retrieval
  rw [if_pos rfl]

/-- C10: passing a single-pass iterable (a generator) of valid documents to
`write_documents` returns without error and stores nothing: the validation
pass `any(not isinstance(doc, Document) for doc in documents)` exhausts the
iterable, so the insertion loop iterates over nothing. -/
theorem write_documents_generator_stores_nothing {σ : Type} (st : Storage σ)
    (docs : List (Document σ)) (duplicates : DuplicatePolicy) :
    write_documents_iterable st { elems := docs, singlePass := true } duplicates =
      { storage := st, warnings := [], error := none } := rfl

/-- C2 counterexample: the claim reads that the returned list is sorted by
descending score.  On a store whose scorer gives the two candidates the
scores `1` and `2`, the call returns the documents in ascending score
order (`argsort(scores)[-top_k:]` lists the selected indices by ascending
score), so the descending ordering fails. -/
theorem bm25_retrieval_not_descending :
    bm25_retrieval exStoreAsc ("q") none 10 false = Except.ok [exDocA1, exDocC2] ∧
    ¬ List.Pairwise (fun a b : Document Int =>
        ∀ x ∈ a.score, ∀ y ∈ b.score, y ≤ x) [exDocA1, exDocC2] := by
  constructor
  · decide
  · decide

/-- C2 (amended): the list returned by `bm25_retrieval` is sorted by
ascending score — not descending.  The order among equal scores is not
part of the statement: `numpy.argsort`'s default quicksort is not a stable
sort, so the program does not guarantee the original candidate order for
ties; the conclusion here uses only the ascending score order, which every
`argsort` result satisfies. -/
theorem bm25_retrieval_sorted_by_ascending_score {σ : Type} [LinearOrder σ]
    (store : MemoryDocumentStore σ) (q : String) (f : Option Filters) (k : Int)
    (sc : Bool) (docs : List (Document σ))
    (hok : bm25_retrieval store q f k sc = Except.ok docs) :
    docs.Pairwise (fun a b => ∀ x ∈ a.score, ∀ y ∈ b.score, x ≤ y) := by
  cases hcd : candidateDocuments store.storage f with
  | error e =>
    unfold bm25_retrieval at hok
    by_cases hq : q = ""
    · rw [if_pos hq] at hok
      exact Except.noConfusion hok
    · rw [if_neg hq, hcd] at hok
      dsimp only at hok
      exact Except.noConfusion hok
  | ok cands =>
    rcases bm25_retrieval_ok_cases hcd hok with ⟨hd, _⟩ | hd
    · subst hd
      exact List.Pairwise.nil
    · subst hd
      have hpw : (pySliceFrom (-k) (argsort (bm25DocsScores store cands q sc))).Pairwise
          (scoreRel (bm25DocsScores store cands q sc)) :=
        List.Pairwise.sublist (pySliceFrom_sublist _ _)
          (pairwise_argsort (bm25DocsScores store cands q sc))
      rw [List.pairwise_map]
      refine hpw.imp ?_
      intro i j hij
      obtain ⟨x, y, hx, hy, hord⟩ := hij
      intro x2 hx2 y2 hy2
      rw [Option.mem_def] at hx2 hy2
      have hx2b : (bm25DocsScores store cands q sc)[i]? = some x2 := hx2
      have hy2b : (bm25DocsScores store cands q sc)[j]? = some y2 := hy2
      rw [hx] at hx2b
      rw [hy] at hy2b
      injection hx2b with he1
      injection hy2b with he2
      subst he1
      subst he2
      rcases hord with h1 | ⟨h1, _⟩
      · exact le_of_lt h1
      · exact le_of_eq h1

/-- Witness for C2 at a concrete input: the two returned scores are `1`
then `2`, an ascending sequence. -/
theorem bm25_retrieval_sorted_by_ascending_score_witness :
    bm25_retrieval exStoreAsc ("q") none 10 false = Except.ok [exDocA1, exDocC2] ∧
    List.Pairwise (fun a b : Document Int =>
      ∀ x ∈ a.score, ∀ y ∈ b.score, x ≤ y) [exDocA1, exDocC2] :=
  ⟨by decide,
    bm25_retrieval_sorted_by_ascending_score exStoreAsc ("q") none 10 false
      [exDocA1, exDocC2] (by decide)⟩

/-- C3 counterexample: the claim reads that for every `top_k` value the
call returns at most `top_k` documents.  With `top_k = 0` the Python slice
`argsort(scores)[-0:]` is the whole list, so every candidate is returned:
on a two-candidate store the result has two documents, more than `0`. -/
theorem bm25_retrieval_top_k_zero :
    bm25_retrieval exStoreZero ("q") none 0 false = Except.ok [exDocA0, exDocC0] ∧
    ¬ (([exDocA0, exDocC0].length : Int) ≤ 0) := by
  constructor
  · decide
  · decide

/-- C3 (amended): for `top_k ≥ 1` the call returns at most `top_k`
documents, and when `top_k` is at least the candidate count it returns
exactly the whole candidate set (every candidate appears once, reordered
by ascending score); `top_k = 0` instead returns all candidates, because
the Python slice `[-0:]` is the whole list. -/
theorem bm25_retrieval_top_k_bound {σ : Type} [LinearOrder σ]
    (store : MemoryDocumentStore σ) (q : String) (f : Option Filters) (k : Int)
    (sc : Bool) (docs cands : List (Document σ))
    (hscorer : ∀ c tq, (store.scorer c tq).length = c.length)
    (hcands : candidateDocuments store.storage f = Except.ok cands)
    (hok : bm25_retrieval store q f k sc = Except.ok docs)
    (hk : 1 ≤ k) :
    (docs.length : Int) ≤ k ∧
    ((cands.length : Int) ≤ k →
      docs.length = cands.length ∧
      (docs.map Document.id).Perm (cands.map Document.id)) := by
  rcases bm25_retrieval_ok_cases hcands hok with ⟨hd, hc⟩ | hd
  · subst hd
    subst hc
    exact ⟨by simp; omega, fun _ => by simp⟩
  · subst hd
    have hlen : (bm25DocsScores store cands q sc).length = cands.length :=
      length_bm25DocsScores store cands q sc hscorer
    have hargl : (argsort (bm25DocsScores store cands q sc)).length =
        (bm25DocsScores store cands q sc).length :=
      length_argsort (bm25DocsScores store cands q sc)
    have hks : (-k) < 0 := by omega
    have hslice : pySliceFrom (-k) (argsort (bm25DocsScores store cands q sc)) =
        (argsort (bm25DocsScores store cands q sc)).drop
          ((argsort (bm25DocsScores store cands q sc)).length - k.toNat) := by
      unfold pySliceFrom
      rw [if_pos hks]
      congr 1
      omega
    constructor
    · rw [List.length_map, hslice, List.length_drop]
      omega
    · intro hck
      have hnk : (argsort (bm25DocsScores store cands q sc)).length - k.toNat = 0 := by
        omega
      rw [hslice, hnk, List.drop_zero]
      constructor
      · rw [List.length_map, hargl, hlen]
      · have hmapeq : ((argsort (bm25DocsScores store cands q sc)).map
            (fun i => ({ cands.getD i default with
              score := (bm25DocsScores store cands q sc)[i]? } : Document σ))).map
              Document.id =
            (argsort (bm25DocsScores store cands q sc)).map
              (fun i => Document.id (cands.getD i default)) := by
          rw [List.map_map]
          rfl
        rw [hmapeq]
        have hperm := (argsort_perm_range (bm25DocsScores store cands q sc)).map
          (fun i => Document.id (cands.getD i default))
        rw [hlen, map_getD_range cands Document.id] at hperm
        exact hperm

/-- Witness for C3 at a concrete input: `top_k = 5` on two candidates
returns both, a permutation of the candidate ids. -/
theorem bm25_retrieval_top_k_bound_witness :
    (∀ c tq, (exStoreZero.scorer c tq).length = c.length) ∧
    candidateDocuments exStoreZero.storage none = Except.ok [exDocA, exDocC] ∧
    bm25_retrieval exStoreZero ("q") none 5 false = Except.ok [exDocA0, exDocC0] ∧
    (1 : Int) ≤ 5 ∧
    ((([exDocA0, exDocC0] : List (Document Int)).length : Int) ≤ 5 ∧
      ((([exDocA, exDocC] : List (Document Int)).length : Int) ≤ 5 →
        ([exDocA0, exDocC0] : List (Document Int)).length =
          ([exDocA, exDocC] : List (Document Int)).length ∧
        (([exDocA0, exDocC0] : List (Document Int)).map Document.id).Perm
          (([exDocA, exDocC] : List (Document Int)).map Document.id))) :=
  ⟨fun c tq => by simp [exStoreZero, exScorerZero], by decide, by decide, by decide,
    bm25_retrieval_top_k_bound exStoreZero ("q") none 5 false
      [exDocA0, exDocC0] [exDocA, exDocC]
      (fun c tq => by simp [exStoreZero, exScorerZero]) (by decide) (by decide) (by decide)⟩

/-- C9: every document returned by `bm25_retrieval` is a fresh copy of a
candidate — identical in id, content and metadata, with only the score
field set — and the stored records are untouched (the model is a pure
function of the store because the source never assigns to `self.storage`),
so filtering by the returned document's id still finds the stored record
with the originally written content. -/
theorem bm25_retrieval_returns_copies {σ : Type} [LinearOrder σ]
    (store : MemoryDocumentStore σ) (q : String) (f : Option Filters) (k : Int)
    (sc : Bool) (docs cands : List (Document σ))
    (hscorer : ∀ c tq, (store.scorer c tq).length = c.length)
    (hcands : candidateDocuments store.storage f = Except.ok cands)
    (hok : bm25_retrieval store q f k sc = Except.ok docs) :
    ∀ d ∈ docs, ∃ c x, c ∈ cands ∧ d = { c with score := some x } ∧
      c ∈ filter_documents store.storage (some [("id", FValue.str d.id)]) := by
  rcases bm25_retrieval_ok_cases hcands hok with ⟨hd, _⟩ | hd
  · subst hd
    intro d hd2
    simp at hd2
  · subst hd
    intro d hd2
    rw [List.mem_map] at hd2
    obtain ⟨i, hi, hbuild⟩ := hd2
    have hlen : (bm25DocsScores store cands q sc).length = cands.length :=
      length_bm25DocsScores store cands q sc hscorer
    have hi2 : i < (bm25DocsScores store cands q sc).length :=
      mem_argsort_lt ((pySliceFrom_sublist (-k) _).subset hi)
    have hic : i < cands.length := by omega
    have hx : (bm25DocsScores store cands q sc)[i]? =
        some ((bm25DocsScores store cands q sc)[i]) :=
      List.getElem?_eq_getElem hi2
    refine ⟨cands.getD i default, (bm25DocsScores store cands q sc)[i], ?_, ?_, ?_⟩
    · rw [List.getD_eq_getElem _ _ hic]
      exact List.getElem_mem _
    · rw [← hbuild, hx]
    · obtain ⟨f2, _, hc2⟩ := candidateDocuments_eq_filter hcands
      have hcmem : cands.getD i default ∈ store.storage.map Prod.snd := by
        refine (filter_documents_sublist store.storage (some f2)).subset ?_
        rw [← hc2, List.getD_eq_getElem _ _ hic]
        exact List.getElem_mem _
      have hid : (cands.getD i default).id = d.id := by
        rw [← hbuild]
      unfold filter_documents
      dsimp only
      rw [if_neg (by simp)]
      rw [List.mem_filter]
      refine ⟨hcmem, ?_⟩
      simp only [matchDocument, matchEntry, fieldValue]
      simp only [List.all_cons, List.all_nil, Bool.and_true]
      simp
      simpa using hid

/-- Witness for C9 at a concrete input: the returned document is `exDocA`
with score `0` attached, and filtering the store by its id returns the
stored `exDocA` unchanged. -/
theorem bm25_retrieval_returns_copies_witness :
    (∀ c tq, (exStoreZero.scorer c tq).length = c.length) ∧
    candidateDocuments exStoreZero.storage none = Except.ok [exDocA, exDocC] ∧
    bm25_retrieval exStoreZero ("q") none 10 false = Except.ok [exDocA0, exDocC0] ∧
    (∀ d ∈ ([exDocA0, exDocC0] : List (Document Int)), ∃ c x,
      c ∈ ([exDocA, exDocC] : List (Document Int)) ∧
      d = { c with score := some x } ∧
      c ∈ filter_documents exStoreZero.storage (some [("id", FValue.str d.id)])) :=
  ⟨fun c tq => by simp [exStoreZero, exScorerZero], by decide, by decide,
    bm25_retrieval_returns_copies exStoreZero ("q") none 10 false
      [exDocA0, exDocC0] [exDocA, exDocC]
      (fun c tq => by simp [exStoreZero, exScorerZero]) (by decide) (by decide)⟩

/-- A real-scored document with id `"1"` and content `"a"`. -/
def exDocAR : Document ℝ :=
  { id := "1", content := Content.text ("a"), meta := [] }

/-- A one-document real-scored store whose squash map is the concrete
`expit(score / SCALING_FACTOR)`. -/
noncomputable def exStoreR : MemoryDocumentStore ℝ :=
  { storage := [("1", exDocAR)], tokenizer := exTokenizer,
    scorer := fun corpus _ => corpus.map (fun _ => 0), squash := expitScaled }

/-- C4: when `scale_score` is set every returned score is the fixed
squashing `expit(raw / SCALING_FACTOR)` of the raw score at the same
position, the squashing is strictly monotone with range inside `(0, 1)` —
so every returned score lies in the open interval — and the scaled call
returns exactly the unscaled call's documents, in the same order, with
only the score field mapped. -/
theorem bm25_retrieval_scale_score (store : MemoryDocumentStore ℝ) (q : String)
    (f : Option Filters) (k : Int)
    (hsquash : store.squash = expitScaled) :
    StrictMono expitScaled ∧
    (∀ x, 0 < expitScaled x ∧ expitScaled x < 1) ∧
    bm25_retrieval store q f k true =
      Except.map (List.map (fun d => { d with score := d.score.map expitScaled }))
        (bm25_retrieval store q f k false) ∧
    (∀ docs, bm25_retrieval store q f k true = Except.ok docs →
      ∀ d ∈ docs, ∀ x ∈ d.score, 0 < x ∧ x < 1) := by
  have hmain : bm25_retrieval store q f k true =
      Except.map (List.map (fun d => { d with score := d.score.map expitScaled }))
        (bm25_retrieval store q f k false) := by
    unfold bm25_retrieval
    by_cases hq : q = ""
    · rw [if_pos hq, if_pos hq]
      rfl
    · rw [if_neg hq, if_neg hq]
      cases hcd : candidateDocuments store.storage f with
      | error e =>
        dsimp only
        rfl
      | ok cands =>
        dsimp only
        by_cases hce : ((lowerCaseDocuments cands).map store.tokenizer).length = 0
        · rw [if_pos hce, if_pos hce]
          rfl
        · rw [if_neg hce, if_neg hce]
          have hraw : bm25DocsScores store cands q true =
              (bm25DocsScores store cands q false).map expitScaled := by
            unfold bm25DocsScores
            rw [hsquash]
            simp
          simp only [Except.map]
          congr 1
          rw [hraw, argsort_map_strictMono expitScaled_strictMono]
          rw [List.map_map]
          refine List.map_congr_left (fun i hi => ?_)
          simp [List.getElem?_map]
  refine ⟨expitScaled_strictMono, expitScaled_mem, hmain, ?_⟩
  intro docs hok d hd x hx
  rw [hmain] at hok
  cases hf2 : bm25_retrieval store q f k false with
  | error e =>
    rw [hf2] at hok
    exact Except.noConfusion hok
  | ok docs0 =>
    rw [hf2] at hok
    simp only [Except.map] at hok
    injection hok with h
    rw [← h] at hd
    rw [List.mem_map] at hd
    obtain ⟨d0, _, hd0⟩ := hd
    rw [← hd0] at hx
    simp only [Option.mem_def] at hx
    rcases Option.map_eq_some'.mp hx with ⟨y, _, hy2⟩
    rw [← hy2]
    exact expitScaled_mem y

/-- Witness for C4 at a concrete store whose squash map is
`expit(score / SCALING_FACTOR)`. -/
theorem bm25_retrieval_scale_score_witness :
    exStoreR.squash = expitScaled ∧
    (StrictMono expitScaled ∧
    (∀ x, 0 < expitScaled x ∧ expitScaled x < 1) ∧
    bm25_retrieval exStoreR ("q") none 10 true =
      Except.map (List.map (fun d => { d with score := d.score.map expitScaled }))
        (bm25_retrieval exStoreR ("q") none 10 false) ∧
    (∀ docs, bm25_retrieval exStoreR ("q") none 10 true = Except.ok docs →
      ∀ d ∈ docs, ∀ x ∈ d.score, 0 < x ∧ x < 1)) :=
  ⟨rfl, bm25_retrieval_scale_score exStoreR ("q") none 10 rfl⟩

end Haystack
